import Mathlib

/-!
Formal model of `src/directory-tree-creator.py`: the tree-text parsers
(indented format and ASCII-art format), the format detector, the item
counter, and the directory-structure materializer, together with proofs
about the behaviour of these functions.

Python strings are modelled as Lean `String`s manipulated at the
character-list level (`String.data`), so that every definition reduces by
`rfl` on concrete inputs.  Python's nested dictionaries (`dict` mapping a
name either to `None` for a file or to a nested `dict` for a directory)
are modelled by the mutual inductives `Node`/`Tree` below: an
insertion-ordered association list from names to nodes, exactly mirroring
insertion-ordered Python dicts.  Exceptions are modelled with `Except`;
the filesystem is modelled as an association list from paths (component
lists) to entries, with an oracle `fail : Path → Bool` saying at which
paths the OS would refuse a creation (permission denied and the like).
-/

namespace DirTreeCreator

/-! ## Python string primitives, at the character level -/

/-- The characters Python `str.strip()` removes. -/
def isSpaceChar (c : Char) : Bool :=
  c = ' ' || c = '\t' || c = '\n' || c = '\r' || c = '\x0b' || c = '\x0c'

/-- Python `s.strip()`. -/
def pyStrip (s : String) : String :=
  String.mk (((s.data.dropWhile isSpaceChar).reverse.dropWhile isSpaceChar).reverse)

/-- Python `len(line) - len(line.lstrip())`: the length of the leading
whitespace run (source line 37). -/
def indentOf (line : String) : Nat :=
  (line.data.takeWhile isSpaceChar).length

/-- Python `str.split('\n')` on the underlying character list. -/
def splitNl : List Char → List (List Char)
  | [] => [[]]
  | c :: rest =>
    match splitNl rest with
    | [] => [[]]
    | l :: ls => if c = '\n' then [] :: l :: ls else (c :: l) :: ls

/-- Python `tree_text.strip().split('\n')` (source lines 26 and 87). -/
def pyLines (text : String) : List String :=
  (splitNl (pyStrip text).data).map String.mk

/-- Python `s.endswith(c)` for a single character `c`. -/
def lastCharIs (s : String) (c : Char) : Bool :=
  s.data.getLast? == some c

/-- Python `s[:-1]`. -/
def dropLastChar (s : String) : String :=
  String.mk s.data.dropLast

/-- Python `s.startswith(c)` for a single character `c`. -/
def firstCharIs (s : String) (c : Char) : Bool :=
  match s.data with
  | [] => false
  | c0 :: _ => c0 == c

/-- Python `c in s` for a single character `c`. -/
def containsChar (s : String) (c : Char) : Bool :=
  s.data.contains c

/-! ## The data model: Python's nested dictionaries -/

mutual

/-- The value a name maps to in the nested dictionary: Python `None`
(a file) or a nested dict (a directory with its children). -/
inductive Node where
  | file : Node
  | dir : Tree → Node

/-- An insertion-ordered mapping from entry names to nodes, mirroring a
Python `dict` (insertion order preserved). -/
inductive Tree where
  | nil : Tree
  | cons : String → Node → Tree → Tree

end

/-- Python dict assignment `d[k] = v`: if the key is present, replace its
value in place (keeping its position); otherwise append at the end. -/
def dictInsert : Tree → String → Node → Tree
  | Tree.nil, k, v => Tree.cons k v Tree.nil
  | Tree.cons k0 v0 rest, k, v =>
    if k0 = k then Tree.cons k v rest else Tree.cons k0 v0 (dictInsert rest k v)

/-- Python `d[k]` / `k in d`: first (and, for a genuine dict, only)
binding of the key. -/
def lookupTree : Tree → String → Option Node
  | Tree.nil, _ => none
  | Tree.cons k0 v0 rest, k => if k0 = k then some v0 else lookupTree rest k

/-- The keys of one mapping, in order. -/
def keysOf : Tree → List String
  | Tree.nil => []
  | Tree.cons k _ rest => k :: keysOf rest

/-! ## Errors raised during parsing -/

/-- How a parse run can fail: `invalidName` models the `ValueError` raised
by the name check at source line 46; `typeError` and `keyError` model the
corresponding Python crashes when the navigation loops index into `None`
or a missing key. -/
inductive ParseErr where
  | invalidName : String → ParseErr
  | typeError : ParseErr
  | keyError : ParseErr
deriving DecidableEq

/-- The name-rejection test of source line 45:
`not name or ('/' in name and not name.startswith('#')) or ('\\' in name
and not name.startswith('#'))`. -/
def badName (name : String) : Bool :=
  name == "" ||
    (containsChar name '/' && !firstCharIs name '#') ||
    (containsChar name '\\' && !firstCharIs name '#')

/-- The stripped name of one line (trailing `/` removed), as computed at
source lines 38-42. -/
def lineNameOf (line : String) : String :=
  let s := pyStrip line
  if lastCharIs s '/' then dropLastChar s else s

/-- The names of the non-blank lines of a line list, in order. -/
def lineNames : List String → List String
  | [] => []
  | l :: rest =>
    if pyStrip l = "" then lineNames rest else lineNameOf l :: lineNames rest

/-- The names the indented parser will subject to the name check, in
source-text order. -/
def textLineNames (text : String) : List String :=
  lineNames (pyLines text)

/-! ## The indented-format parser (source lines 16-73) -/

/-- Source lines 49-51: `while indent <= indent_stack[-1]: pop both
stacks`.  The stack is kept root-first, as in the source, with the
indent and the name paired; popping from the end is dropping from the
head of the reversal.  The `-1` sentinel of `indent_stack` needs no
counterpart: `indent ≤ -1` is false for every natural `indent`, so the
sentinel is never popped. -/
def popStack (indent : Nat) (stack : List (Nat × String)) : List (Nat × String) :=
  (stack.reverse.dropWhile (fun e => decide (indent ≤ e.1))).reverse

/-- Source lines 54-66: navigate from the root along the (already popped)
path, creating intermediate directory nodes for missing segments
(`if p not in current: current[p] = {}`), and set `current[name]`.
Indexing into a file's `None` during navigation is a Python `TypeError`. -/
def setPath : Tree → List String → String → Node → Except ParseErr Tree
  | t, [], name, v => Except.ok (dictInsert t name v)
  | t, p :: ps, name, v =>
    match lookupTree t p with
    | some (Node.dir sub) =>
      match setPath sub ps name v with
      | Except.ok sub1 => Except.ok (dictInsert t p (Node.dir sub1))
      | Except.error e => Except.error e
    | some Node.file => Except.error ParseErr.typeError
    | none =>
      match setPath Tree.nil ps name v with
      | Except.ok sub1 => Except.ok (dictInsert t p (Node.dir sub1))
      | Except.error e => Except.error e

/-- The loop of `parse_indented_tree` (source lines 31-71), processing the
remaining lines with the accumulated root and the combined
indent/path stack. -/
def parseIndLines : List String → Tree → List (Nat × String) → Except ParseErr Tree
  | [], root, _ => Except.ok root
  | line :: rest, root, stack =>
    if pyStrip line = "" then parseIndLines rest root stack
    else
      let indent := indentOf line
      let name := lineNameOf line
      let isDirLine := lastCharIs (pyStrip line) '/'
      if badName name then Except.error (ParseErr.invalidName name)
      else
        let stack1 := popStack indent stack
        match setPath root (stack1.map Prod.snd) name
            (if isDirLine then Node.dir Tree.nil else Node.file) with
        | Except.error e => Except.error e
        | Except.ok root1 =>
          parseIndLines rest root1
            (if isDirLine then stack1 ++ [(indent, name)] else stack1)

/-- `parse_indented_tree` (source lines 16-73). -/
def parse_indented_tree (text : String) : Except ParseErr Tree :=
  parseIndLines (pyLines text) Tree.nil []

/-! ## The ASCII-tree parser (source lines 76-154) -/

/-- The regex search `re.search(r'[│├└](?:──|─)', line)` of source
line 118, on the character list: the end position (in characters) of the
first occurrence of a branch character followed by `──` (preferred, the
regex alternative is ordered) or `─`. -/
def connEnd : List Char → Option Nat
  | [] => none
  | c :: rest =>
    if c = '│' || c = '├' || c = '└' then
      match rest with
      | d :: e :: _ =>
        if d = '─' && e = '─' then some 3
        else if d = '─' then some 2
        else (connEnd rest).map (· + 1)
      | [d] => if d = '─' then some 2 else (connEnd rest).map (· + 1)
      | [] => none
    else (connEnd rest).map (· + 1)

/-- Whether a character is one of the branch glyphs counted at source
line 122. -/
def isBranchChar (c : Char) : Bool :=
  c = '│' || c = '├' || c = '└'

/-- Source lines 142-148 have no defensive creation: a missing key is a
Python `KeyError`, indexing into `None` is a `TypeError`. -/
def setPathStrict : Tree → List String → String → Node → Except ParseErr Tree
  | t, [], name, v => Except.ok (dictInsert t name v)
  | t, p :: ps, name, v =>
    match lookupTree t p with
    | some (Node.dir sub) =>
      match setPathStrict sub ps name v with
      | Except.ok sub1 => Except.ok (dictInsert t p (Node.dir sub1))
      | Except.error e => Except.error e
    | some Node.file => Except.error ParseErr.typeError
    | none => Except.error ParseErr.keyError

/-- One line's depth and content as computed at source lines 112-132:
the connector position gives `content_start` and the number of branch
glyphs in the prefix gives the depth; the content is then trimmed and a
`#` comment split off and discarded. -/
def asciiLineContent (line : String) : Nat × String :=
  let cs := line.data
  let pair :=
    match connEnd cs with
    | some e => (e, (cs.take e).countP (fun c => isBranchChar c))
    | none => (0, 0)
  let content0 := pyStrip (String.mk (cs.drop pair.1))
  let content :=
    if containsChar content0 '#' then
      pyStrip (String.mk (content0.data.takeWhile (fun c => c ≠ '#')))
    else content0
  (pair.2, content)

/-- The loop of `parse_ascii_tree` over the lines after the root line
(source lines 107-152).  The state keeps the root directory's children
(`structure[root_name]` in the source, which stays the only binding of
the outer dict) and the path stack without its leading root name, so
`path_stack.take (depth+1)` becomes `stack.take depth`. -/
def parseAsciiLines : List String → Tree → List String → Except ParseErr Tree
  | [], root, _ => Except.ok root
  | line :: rest, root, stack =>
    if pyStrip line = "" then parseAsciiLines rest root stack
    else
      let dc := asciiLineContent line
      let content := dc.2
      let isDirLine := lastCharIs content '/'
      let name := if isDirLine then dropLastChar content else content
      let stack1 := stack.take dc.1
      match setPathStrict root stack1 name
          (if isDirLine then Node.dir Tree.nil else Node.file) with
      | Except.error e => Except.error e
      | Except.ok root1 =>
        parseAsciiLines rest root1 (if isDirLine then stack1 ++ [name] else stack1)

/-- `parse_ascii_tree` (source lines 76-154): if the first line ends in
`/` it is the root line and the remaining lines are parsed under it;
otherwise a synthetic root named `root` is installed and the original
first line is re-processed as an ordinary content line.  Only the root's
children are returned. -/
def parse_ascii_tree (text : String) : Except ParseErr Tree :=
  match pyLines text with
  | [] => Except.ok Tree.nil
  | fstLine :: rest =>
    if lastCharIs (pyStrip fstLine) '/' then parseAsciiLines rest Tree.nil []
    else parseAsciiLines (fstLine :: rest) Tree.nil []

/-- `detect_format_and_parse` (source lines 157-171). -/
def detect_format_and_parse (text : String) : Except ParseErr (Tree × String) :=
  if containsChar text '├' || containsChar text '└' ||
      containsChar text '│' || containsChar text '─' then
    (parse_ascii_tree text).map (fun t => (t, "ASCII tree"))
  else
    (parse_indented_tree text).map (fun t => (t, "Indented"))

/-! ## The item counter (source lines 220-228) -/

mutual

/-- `count_items`: every non-comment entry counts one, plus its children
when it is a directory; a `#`-named entry contributes nothing and its
subtree is never visited. -/
def count_items : Tree → Nat
  | Tree.nil => 0
  | Tree.cons name node rest =>
    (if firstCharIs name '#' then 0 else 1 + countSub node) + count_items rest

/-- The contents contribution of one entry: nothing for a file
(`contents is None`), the recursive count for a directory. -/
def countSub : Node → Nat
  | Node.file => 0
  | Node.dir ch => count_items ch

end

/-! ## The filesystem model -/

/-- A filesystem path, as the list of its components; `os.path.join(base,
name)` is `base ++ [name]` and `os.path.dirname` is `List.dropLast`. -/
abbrev Path := List String

/-- What sits on disk at a path: a directory, or a file with its
contents (the materializer only ever writes empty files, but pre-existing
files may have contents, which `open(path, 'w')` truncates). -/
inductive Entry where
  | dir : Entry
  | file : String → Entry
deriving DecidableEq

/-- The filesystem: an association list from paths to entries.  The
creation routines below only ever append a binding for a path that has no
binding yet, or update the first binding in place, so first-match lookup
is the dict semantics. -/
abbrev FS := List (Path × Entry)

/-- The OS-level errors the modelled calls can raise: `permission` comes
from the oracle (the path at which the OS refused the creation),
`fileExists` from `os.makedirs` meeting a file where a directory is
needed, `isADirectory` from `open(path, 'w')` on a directory, and
`fileNotFound` from `os.makedirs('')` on an empty path. -/
inductive OsErr where
  | permission : Path → OsErr
  | fileExists : Path → OsErr
  | isADirectory : Path → OsErr
  | fileNotFound : Path → OsErr
deriving DecidableEq

/-- The `RuntimeError`s raised at source lines 205 and 217:
`fileErr p e` is `"Error creating file {p}: {e}"` with an OS cause,
`dirOsErr p e` is `"Error creating directory {p}: {e}"` with an OS cause,
and `dirNested p e` is the same message wrapping the `RuntimeError`
re-raised from the recursive call inside the same `try` block. -/
inductive CErr where
  | fileErr : Path → OsErr → CErr
  | dirOsErr : Path → OsErr → CErr
  | dirNested : Path → CErr → CErr
deriving DecidableEq

/-- The innermost failing path and OS cause identified by a (possibly
nested) `CreationError`'s message chain. -/
def CErr.rootCause : CErr → Path × OsErr
  | CErr.fileErr p e => (p, e)
  | CErr.dirOsErr p e => (p, e)
  | CErr.dirNested _ e => e.rootCause

def lookupFS : FS → Path → Option Entry
  | [], _ => none
  | (q, e) :: rest, p => if q = p then some e else lookupFS rest p

/-- Replace the entry of the first binding of `p` (the binding lookup
sees), leaving everything else alone. -/
def updateFS : FS → Path → Entry → FS
  | [], _, _ => []
  | (q, e) :: rest, p, v =>
    if q = p then (p, v) :: rest else (q, e) :: updateFS rest p v

/-- The recursion of `os.makedirs(path, exist_ok=True)`: ensure every
prefix of the path is a directory, in order, creating the missing ones.
A prefix already present as a directory is fine (`exist_ok`); one present
as a file is an error; creating a missing one consults the oracle. -/
def mkdirsAux (fail : Path → Bool) : FS → Path → List String → FS × Except OsErr Unit
  | fs, _, [] => (fs, Except.ok ())
  | fs, pref, c :: rest =>
    match lookupFS fs (pref ++ [c]) with
    | some Entry.dir => mkdirsAux fail fs (pref ++ [c]) rest
    | some (Entry.file _) => (fs, Except.error (OsErr.fileExists (pref ++ [c])))
    | none =>
      if fail (pref ++ [c]) then (fs, Except.error (OsErr.permission (pref ++ [c])))
      else mkdirsAux fail (fs ++ [(pref ++ [c], Entry.dir)]) (pref ++ [c]) rest

/-- `os.makedirs(p, exist_ok=True)`; `os.makedirs('')` raises
`FileNotFoundError`. -/
def makedirs (fail : Path → Bool) (fs : FS) (p : Path) : FS × Except OsErr Unit :=
  if p = [] then (fs, Except.error (OsErr.fileNotFound p)) else mkdirsAux fail fs [] p

/-- `open(path, 'w').close()`: truncate an existing file to empty, refuse
a directory, create a missing file empty; the oracle can refuse the
write. -/
def openW (fail : Path → Bool) (fs : FS) (p : Path) : FS × Except OsErr Unit :=
  match lookupFS fs p with
  | some (Entry.file _) =>
    if fail p then (fs, Except.error (OsErr.permission p))
    else (updateFS fs p (Entry.file ""), Except.ok ())
  | some Entry.dir => (fs, Except.error (OsErr.isADirectory p))
  | none =>
    if fail p then (fs, Except.error (OsErr.permission p))
    else (fs ++ [(p, Entry.file "")], Except.ok ())

/-! ## The structure materializer (source lines 174-217) -/

/-- Join path components the way `os.path.join` renders them in the
status strings. -/
def pathStr : Path → String
  | [] => ""
  | [c] => c
  | c :: rest => c ++ "/" ++ pathStr rest

/-- One invocation of the progress callback (source lines 197 and 210):
the status string and the two counters whose quotient (times 100) is the
reported percentage.  `created` is `items_created` of the current
recursion level at the moment of the call, `total` is `total_items`,
i.e. `count_items` of the (sub)structure that level was called on. -/
structure Event where
  status : String
  created : Nat
  total : Nat
deriving DecidableEq

/-- The percentage passed to the callback:
`items_created / total_items * 100`, as an exact rational. -/
def evPercent (ev : Event) : ℚ :=
  (ev.created : ℚ) / (ev.total : ℚ) * 100

mutual

/-- The `for name, contents in structure.items()` loop of
`create_directory_structure`, with `total` the `total_items` computed on
entry and `created` the running `items_created`.  Returns the filesystem
after all side effects, the list of callback invocations in order, and
the outcome: the Python function falls off its end, so the success value
is `None` — there is no return statement. -/
def goLoop (fail : Path → Bool) (base : Path) (total : Nat) :
    Nat → Tree → FS → FS × List Event × Except CErr (Option Int)
  | _, Tree.nil, fs => (fs, [], Except.ok none)
  | created, Tree.cons name node rest, fs =>
    if firstCharIs name '#' then goLoop fail base total created rest fs
    else
      match goEntry fail base total created name node fs with
      | (fs1, tr1, Except.error e) => (fs1, tr1, Except.error e)
      | (fs1, tr1, Except.ok _) =>
        match goLoop fail base total (created + 1) rest fs1 with
        | (fs2, tr2, r) => (fs2, tr1 ++ tr2, r)

/-- The body of the loop for one non-comment entry (source lines
191-217): for a file, report, ensure the parent directory, create the
file empty; for a directory, report, create it, then recurse into its
children — the recursive call (a fresh `create_directory_structure` with
its own `items_created`/`total_items`) happens inside the same `try`, so
its `RuntimeError` is wrapped again. -/
def goEntry (fail : Path → Bool) (base : Path) (total created : Nat) (name : String) :
    Node → FS → FS × List Event × Except CErr Unit
  | Node.file, fs =>
    let p := base ++ [name]
    let ev : Event := ⟨"Creating file: " ++ pathStr p, created, total⟩
    match makedirs fail fs p.dropLast with
    | (fs1, Except.error e) => (fs1, [ev], Except.error (CErr.fileErr p e))
    | (fs1, Except.ok _) =>
      match openW fail fs1 p with
      | (fs2, Except.error e) => (fs2, [ev], Except.error (CErr.fileErr p e))
      | (fs2, Except.ok _) => (fs2, [ev], Except.ok ())
  | Node.dir ch, fs =>
    let p := base ++ [name]
    let ev : Event := ⟨"Creating directory: " ++ pathStr p, created, total⟩
    match makedirs fail fs p with
    | (fs1, Except.error e) => (fs1, [ev], Except.error (CErr.dirOsErr p e))
    | (fs1, Except.ok _) =>
      match goLoop fail p (count_items ch) 0 ch fs1 with
      | (fs2, tr2, Except.error e) => (fs2, ev :: tr2, Except.error (CErr.dirNested p e))
      | (fs2, tr2, Except.ok _) => (fs2, ev :: tr2, Except.ok ())

end

/-- `create_directory_structure(base_path, structure, update_callback)`:
`total_items = count_items(structure)`, `items_created = 0`, then the
loop. -/
def create_directory_structure (fail : Path → Bool) (base : Path) (t : Tree) (fs : FS) :
    FS × List Event × Except CErr (Option Int) :=
  goLoop fail base (count_items t) 0 t fs

/-! ## Auxiliary predicates used in the statements -/

/-- Every non-empty prefix of the path, checked front to back, is a
directory — the state in which `os.makedirs(…, exist_ok=True)` does
nothing. -/
def prefDirsAux (fs : FS) : Path → List String → Bool
  | _, [] => true
  | pref, c :: rest =>
    decide (lookupFS fs (pref ++ [c]) = some Entry.dir) && prefDirsAux fs (pref ++ [c]) rest

def prefDirsB (fs : FS) (p : Path) : Bool :=
  prefDirsAux fs [] p

mutual

/-- The structure is fully materialized under `base` in `fs`: every
non-comment file entry sits on disk as an empty file (at a path the
oracle does not refuse, with its parent chain of directories in place)
and every non-comment directory entry as a directory with its children
materialized below it. -/
def materializedB (fail : Path → Bool) (fs : FS) (base : Path) : Tree → Bool
  | Tree.nil => true
  | Tree.cons name node rest =>
    (firstCharIs name '#' || materializedEntry fail fs base name node) &&
      materializedB fail fs base rest

def materializedEntry (fail : Path → Bool) (fs : FS) (base : Path) (name : String) :
    Node → Bool
  | Node.file =>
    decide (base ≠ []) && prefDirsB fs base &&
      decide (lookupFS fs (base ++ [name]) = some (Entry.file "")) && !fail (base ++ [name])
  | Node.dir ch =>
    prefDirsB fs (base ++ [name]) && materializedB fail fs (base ++ [name]) ch

end

mutual

/-- Every non-comment file entry of the structure is present as an empty
file. -/
def allFilesEmptyB (fs : FS) (base : Path) : Tree → Bool
  | Tree.nil => true
  | Tree.cons name node rest =>
    (firstCharIs name '#' || filesEmptyEntry fs base name node) && allFilesEmptyB fs base rest

def filesEmptyEntry (fs : FS) (base : Path) (name : String) : Node → Bool
  | Node.file => decide (lookupFS fs (base ++ [name]) = some (Entry.file ""))
  | Node.dir ch => allFilesEmptyB fs (base ++ [name]) ch

end

/-- Navigating the tree along a list of names meets a directory at every
step (the well-formedness the indented parser's path stack maintains). -/
def PathIsDirs : Tree → List String → Prop
  | _, [] => True
  | t, p :: ps => ∃ sub, lookupTree t p = some (Node.dir sub) ∧ PathIsDirs sub ps

mutual

/-- Every name anywhere in the tree is non-empty and, unless it starts
with `#`, contains neither `/` nor `\` — i.e. no name fails `badName`. -/
def goodTreeB : Tree → Bool
  | Tree.nil => true
  | Tree.cons k v rest => !badName k && goodNode v && goodTreeB rest

def goodNode : Node → Bool
  | Node.file => true
  | Node.dir ch => goodTreeB ch

end

mutual

/-- Within every mapping of the tree, names are pairwise distinct. -/
def nodupKeysB : Tree → Bool
  | Tree.nil => true
  | Tree.cons k v rest => !decide (k ∈ keysOf rest) && nodupNode v && nodupKeysB rest

def nodupNode : Node → Bool
  | Node.file => true
  | Node.dir ch => nodupKeysB ch

end

/-- The invariant the indented parser's loop maintains: the accumulated
root has only validated names and duplicate-free mappings, every name on
the stack has been validated, and the stack path navigates through
directory nodes. -/
structure IndInv (root : Tree) (stack : List (Nat × String)) : Prop where
  good : goodTreeB root = true
  nodup : nodupKeysB root = true
  stackGood : ∀ e ∈ stack, badName e.2 = false
  pathDirs : PathIsDirs root (stack.map Prod.snd)

/-- Directories survive: every path that is a directory before is still a
directory after. -/
def DirsStable (fs fs' : FS) : Prop :=
  ∀ q, lookupFS fs q = some Entry.dir → lookupFS fs' q = some Entry.dir

/-- Empty files survive: the creation routines never write anything but
empty files, and truncation keeps an empty file empty. -/
def EmptyFilesStable (fs fs' : FS) : Prop :=
  ∀ q, lookupFS fs q = some (Entry.file "") → lookupFS fs' q = some (Entry.file "")

/-! ## Lemmas about the ordered mapping -/

theorem lookupTree_dictInsert_self : ∀ (t : Tree) (k : String) (v : Node),
    lookupTree (dictInsert t k v) k = some v
  | Tree.nil, k, v => by simp [dictInsert, lookupTree]
  | Tree.cons k0 v0 rest, k, v => by
    by_cases h : k0 = k <;>
      simp [dictInsert, lookupTree, h, lookupTree_dictInsert_self rest k v]

theorem lookupTree_dictInsert_ne : ∀ (t : Tree) (k : String) (v : Node) (k' : String),
    k' ≠ k → lookupTree (dictInsert t k v) k' = lookupTree t k'
  | Tree.nil, k, v, k', h => by simp [dictInsert, lookupTree, Ne.symm h]
  | Tree.cons k0 v0 rest, k, v, k', h => by
    by_cases h0 : k0 = k
    · subst h0
      simp [dictInsert, lookupTree, Ne.symm h]
    · by_cases h1 : k0 = k'
      · subst h1
        simp [dictInsert, lookupTree, h0]
      · simp [dictInsert, lookupTree, h0, h1, lookupTree_dictInsert_ne rest k v k' h]

theorem keysOf_dictInsert_mem : ∀ (t : Tree) (k : String) (v : Node),
    k ∈ keysOf t → keysOf (dictInsert t k v) = keysOf t
  | Tree.nil, _, _, h => by simp [keysOf] at h
  | Tree.cons k0 v0 rest, k, v, h => by
    by_cases h0 : k0 = k
    · simp [dictInsert, keysOf, h0]
    · have hrest : k ∈ keysOf rest := by
        rcases List.mem_cons.mp (by simpa [keysOf] using h) with h1 | h1
        · exact absurd h1.symm h0
        · exact h1
      simp [dictInsert, keysOf, h0, keysOf_dictInsert_mem rest k v hrest]

theorem keysOf_dictInsert_notMem : ∀ (t : Tree) (k : String) (v : Node),
    k ∉ keysOf t → keysOf (dictInsert t k v) = keysOf t ++ [k]
  | Tree.nil, k, v, _ => by simp [dictInsert, keysOf]
  | Tree.cons k0 v0 rest, k, v, h => by
    have h0 : k0 ≠ k := fun hh => h (by simp [keysOf, hh])
    have hrest : k ∉ keysOf rest := fun hh => h (by simp [keysOf, hh])
    simp [dictInsert, keysOf, h0, keysOf_dictInsert_notMem rest k v hrest]

/-! ## Lemmas about the indentation stack -/

/-- The pop loop removes exactly a suffix of the (root-first) stack, and
every removed entry has indentation `≥` the current line's. -/
theorem popStack_decomp (indent : Nat) (stack : List (Nat × String)) :
    ∃ dropped, stack = popStack indent stack ++ dropped ∧ ∀ e ∈ dropped, indent ≤ e.1 := by
  refine ⟨(stack.reverse.takeWhile (fun e => decide (indent ≤ e.1))).reverse, ?_, ?_⟩
  · unfold popStack
    rw [← List.reverse_append, List.takeWhile_append_dropWhile, List.reverse_reverse]
  · intro e he
    have := List.mem_takeWhile_imp (List.mem_reverse.mp he)
    simpa using this

theorem popStack_subset (indent : Nat) (stack : List (Nat × String)) :
    ∀ e ∈ popStack indent stack, e ∈ stack := by
  obtain ⟨dropped, hd, -⟩ := popStack_decomp indent stack
  intro e he
  rw [hd]
  exact List.mem_append_left _ he

/-! ## Lemmas about the navigation and insertion of the parsers -/

theorem pathIsDirs_append : ∀ (p q : List String) (t : Tree),
    PathIsDirs t (p ++ q) → PathIsDirs t p
  | [], _, _, _ => trivial
  | a :: p, q, t, h => by
    obtain ⟨sub, hl, hrec⟩ := h
    exact ⟨sub, hl, pathIsDirs_append p q sub hrec⟩

theorem setPath_ok_of_dirs : ∀ (path : List String) (t : Tree) (name : String) (v : Node),
    PathIsDirs t path → ∃ t', setPath t path name v = Except.ok t'
  | [], t, name, v, _ => ⟨dictInsert t name v, rfl⟩
  | p :: ps, t, name, v, h => by
    obtain ⟨sub, hl, hrec⟩ := h
    obtain ⟨sub1, hsub⟩ := setPath_ok_of_dirs ps sub name v hrec
    exact ⟨dictInsert t p (Node.dir sub1), by simp [setPath, hl, hsub]⟩

theorem setPath_dirs : ∀ (path : List String) (t t' : Tree) (name : String) (v : Node),
    PathIsDirs t path → setPath t path name v = Except.ok t' →
    PathIsDirs t' path ∧ (v = Node.dir Tree.nil → PathIsDirs t' (path ++ [name]))
  | [], t, t', name, v, _, h => by
    have ht' : dictInsert t name v = t' := by simpa [setPath] using h
    subst ht'
    refine ⟨trivial, fun hv => ?_⟩
    subst hv
    exact ⟨Tree.nil, lookupTree_dictInsert_self t name (Node.dir Tree.nil), trivial⟩
  | p :: ps, t, t', name, v, hd, h => by
    obtain ⟨sub, hl, hrec⟩ := hd
    obtain ⟨sub1, hsub⟩ := setPath_ok_of_dirs ps sub name v hrec
    have ht' : dictInsert t p (Node.dir sub1) = t' := by simpa [setPath, hl, hsub] using h
    subst ht'
    obtain ⟨hdirs1, hpush1⟩ := setPath_dirs ps sub sub1 name v hrec hsub
    refine ⟨⟨sub1, lookupTree_dictInsert_self t p (Node.dir sub1), hdirs1⟩, fun hv => ?_⟩
    exact ⟨sub1, lookupTree_dictInsert_self t p (Node.dir sub1), hpush1 hv⟩

theorem goodTreeB_dictInsert : ∀ (t : Tree) (k : String) (v : Node),
    goodTreeB t = true → badName k = false → goodNode v = true →
    goodTreeB (dictInsert t k v) = true
  | Tree.nil, k, v, _, hk, hv => by simp [dictInsert, goodTreeB, hk, hv]
  | Tree.cons k0 v0 rest, k, v, h, hk, hv => by
    simp only [goodTreeB, Bool.and_eq_true] at h
    by_cases h0 : k0 = k
    · simp [dictInsert, h0, goodTreeB, hk, hv, h.2]
    · simp [dictInsert, h0, goodTreeB, h.1.1, h.1.2,
        goodTreeB_dictInsert rest k v h.2 hk hv]

theorem nodupKeysB_dictInsert : ∀ (t : Tree) (k : String) (v : Node),
    nodupKeysB t = true → nodupNode v = true → nodupKeysB (dictInsert t k v) = true
  | Tree.nil, k, v, _, hv => by simp [dictInsert, nodupKeysB, keysOf, hv]
  | Tree.cons k0 v0 rest, k, v, h, hv => by
    simp only [nodupKeysB, Bool.and_eq_true] at h
    obtain ⟨⟨hk0, hv0⟩, hrest⟩ := h
    by_cases h0 : k0 = k
    · subst h0
      simp only [dictInsert, if_pos rfl]
      simp only [nodupKeysB, Bool.and_eq_true]
      exact ⟨⟨hk0, hv⟩, hrest⟩
    · have hins := nodupKeysB_dictInsert rest k v hrest hv
      have hk0' : k0 ∉ keysOf rest := by simpa using hk0
      by_cases hm : k ∈ keysOf rest
      · have hkeys := keysOf_dictInsert_mem rest k v hm
        simp only [dictInsert, h0, if_false]
        simp only [nodupKeysB, Bool.and_eq_true, hkeys]
        exact ⟨⟨hk0, hv0⟩, hins⟩
      · have hkeys := keysOf_dictInsert_notMem rest k v hm
        simp only [dictInsert, h0, if_false]
        simp only [nodupKeysB, Bool.and_eq_true, hkeys]
        refine ⟨⟨?_, hv0⟩, hins⟩
        simp [List.mem_append, hk0', h0]

theorem goodTreeB_lookup : ∀ (t : Tree) (p : String) (sub : Tree),
    goodTreeB t = true → lookupTree t p = some (Node.dir sub) → goodTreeB sub = true
  | Tree.nil, _, _, _, hl => by simp [lookupTree] at hl
  | Tree.cons k0 v0 rest, p, sub, hg, hl => by
    simp only [goodTreeB, Bool.and_eq_true] at hg
    by_cases h0 : k0 = p
    · have hv0 : v0 = Node.dir sub := by simpa [lookupTree, h0] using hl
      subst hv0
      simpa [goodNode] using hg.1.2
    · exact goodTreeB_lookup rest p sub hg.2 (by simpa [lookupTree, h0] using hl)

theorem nodupKeysB_lookup : ∀ (t : Tree) (p : String) (sub : Tree),
    nodupKeysB t = true → lookupTree t p = some (Node.dir sub) → nodupKeysB sub = true
  | Tree.nil, _, _, _, hl => by simp [lookupTree] at hl
  | Tree.cons k0 v0 rest, p, sub, hg, hl => by
    simp only [nodupKeysB, Bool.and_eq_true] at hg
    by_cases h0 : k0 = p
    · have hv0 : v0 = Node.dir sub := by simpa [lookupTree, h0] using hl
      subst hv0
      simpa [nodupNode] using hg.1.2
    · exact nodupKeysB_lookup rest p sub hg.2 (by simpa [lookupTree, h0] using hl)

theorem setPath_good : ∀ (path : List String) (t t' : Tree) (name : String) (v : Node),
    goodTreeB t = true → (∀ n ∈ path, badName n = false) → badName name = false →
    goodNode v = true → setPath t path name v = Except.ok t' → goodTreeB t' = true
  | [], t, t', name, v, hg, _, hn, hv, h => by
    have ht' : dictInsert t name v = t' := by simpa [setPath] using h
    subst ht'
    exact goodTreeB_dictInsert t name v hg hn hv
  | p :: ps, t, t', name, v, hg, hp, hn, hv, h => by
    have hpb : badName p = false := hp p (List.mem_cons_self p ps)
    have hps : ∀ n ∈ ps, badName n = false := fun n hm => hp n (List.mem_cons_of_mem p hm)
    rcases hl : lookupTree t p with - | node
    · rcases hsub : setPath Tree.nil ps name v with e | sub1
      · rw [show setPath t (p :: ps) name v = Except.error e by
            simp [setPath, hl, hsub]] at h
        simp at h
      · have ht' : dictInsert t p (Node.dir sub1) = t' := by
          simpa [setPath, hl, hsub] using h
        subst ht'
        have hs1 : goodTreeB sub1 = true :=
          setPath_good ps Tree.nil sub1 name v (by simp [goodTreeB]) hps hn hv hsub
        exact goodTreeB_dictInsert t p (Node.dir sub1) hg hpb (by simpa [goodNode] using hs1)
    · cases node with
      | file =>
        rw [show setPath t (p :: ps) name v = Except.error ParseErr.typeError by
            simp [setPath, hl]] at h
        simp at h
      | dir sub =>
        rcases hsub : setPath sub ps name v with e | sub1
        · rw [show setPath t (p :: ps) name v = Except.error e by
              simp [setPath, hl, hsub]] at h
          simp at h
        · have ht' : dictInsert t p (Node.dir sub1) = t' := by
            simpa [setPath, hl, hsub] using h
          subst ht'
          have hsubgood : goodTreeB sub = true := goodTreeB_lookup t p sub hg hl
          have hs1 : goodTreeB sub1 = true :=
            setPath_good ps sub sub1 name v hsubgood hps hn hv hsub
          exact goodTreeB_dictInsert t p (Node.dir sub1) hg hpb (by simpa [goodNode] using hs1)

theorem setPath_nodup : ∀ (path : List String) (t t' : Tree) (name : String) (v : Node),
    nodupKeysB t = true → nodupNode v = true →
    setPath t path name v = Except.ok t' → nodupKeysB t' = true
  | [], t, t', name, v, hg, hv, h => by
    have ht' : dictInsert t name v = t' := by simpa [setPath] using h
    subst ht'
    exact nodupKeysB_dictInsert t name v hg hv
  | p :: ps, t, t', name, v, hg, hv, h => by
    rcases hl : lookupTree t p with - | node
    · rcases hsub : setPath Tree.nil ps name v with e | sub1
      · rw [show setPath t (p :: ps) name v = Except.error e by
            simp [setPath, hl, hsub]] at h
        simp at h
      · have ht' : dictInsert t p (Node.dir sub1) = t' := by
          simpa [setPath, hl, hsub] using h
        subst ht'
        have hs1 : nodupKeysB sub1 = true :=
          setPath_nodup ps Tree.nil sub1 name v (by simp [nodupKeysB]) hv hsub
        exact nodupKeysB_dictInsert t p (Node.dir sub1) hg (by simpa [nodupNode] using hs1)
    · cases node with
      | file =>
        rw [show setPath t (p :: ps) name v = Except.error ParseErr.typeError by
            simp [setPath, hl]] at h
        simp at h
      | dir sub =>
        rcases hsub : setPath sub ps name v with e | sub1
        · rw [show setPath t (p :: ps) name v = Except.error e by
              simp [setPath, hl, hsub]] at h
          simp at h
        · have ht' : dictInsert t p (Node.dir sub1) = t' := by
            simpa [setPath, hl, hsub] using h
          subst ht'
          have hsubnd : nodupKeysB sub = true := nodupKeysB_lookup t p sub hg hl
          have hs1 : nodupKeysB sub1 = true :=
            setPath_nodup ps sub sub1 name v hsubnd hv hsub
          exact nodupKeysB_dictInsert t p (Node.dir sub1) hg (by simpa [nodupNode] using hs1)

theorem setPath_error_not_invalid : ∀ (path : List String) (t : Tree) (name : String)
    (v : Node) (e : ParseErr),
    setPath t path name v = Except.error e → ∀ m, e ≠ ParseErr.invalidName m
  | [], t, name, v, e, h => by simp [setPath] at h
  | p :: ps, t, name, v, e, h => by
    rcases hl : lookupTree t p with - | node
    · rcases hsub : setPath Tree.nil ps name v with e1 | sub1
      · have he : e1 = e := by simpa [setPath, hl, hsub] using h
        exact he ▸ setPath_error_not_invalid ps Tree.nil name v e1 hsub
      · simp [setPath, hl, hsub] at h
    · cases node with
      | file =>
        have he : ParseErr.typeError = e := by simpa [setPath, hl] using h
        subst he
        intro m hm
        cases hm
      | dir sub =>
        rcases hsub : setPath sub ps name v with e1 | sub1
        · have he : e1 = e := by simpa [setPath, hl, hsub] using h
          exact he ▸ setPath_error_not_invalid ps sub name v e1 hsub
        · simp [setPath, hl, hsub] at h

/-- Processing one valid non-blank line succeeds and preserves the
parser's invariant. -/
theorem parseIndLines_step (line : String) (rest : List String) (root : Tree)
    (stack : List (Nat × String)) (hblank : ¬pyStrip line = "")
    (hbad : badName (lineNameOf line) = false) (inv : IndInv root stack) :
    ∃ root1 stack1,
      parseIndLines (line :: rest) root stack = parseIndLines rest root1 stack1
      ∧ IndInv root1 stack1 := by
  obtain ⟨dropped, hd, -⟩ := popStack_decomp (indentOf line) stack
  have pathDirs1 : PathIsDirs root ((popStack (indentOf line) stack).map Prod.snd) := by
    apply pathIsDirs_append _ (dropped.map Prod.snd) root
    rw [← List.map_append, ← hd]
    exact inv.pathDirs
  have stackNames1 : ∀ n ∈ (popStack (indentOf line) stack).map Prod.snd,
      badName n = false := by
    intro n hn
    obtain ⟨e, he, hes⟩ := List.mem_map.mp hn
    exact hes ▸ inv.stackGood e (popStack_subset (indentOf line) stack e he)
  have stackGood1 : ∀ e ∈ popStack (indentOf line) stack, badName e.2 = false :=
    fun e he => inv.stackGood e (popStack_subset (indentOf line) stack e he)
  by_cases hdir : lastCharIs (pyStrip line) '/'
  · obtain ⟨root1, hset⟩ := setPath_ok_of_dirs ((popStack (indentOf line) stack).map Prod.snd)
      root (lineNameOf line) (Node.dir Tree.nil) pathDirs1
    obtain ⟨hkeep, hpush⟩ := setPath_dirs _ root root1 (lineNameOf line) (Node.dir Tree.nil)
      pathDirs1 hset
    refine ⟨root1, popStack (indentOf line) stack ++ [(indentOf line, lineNameOf line)],
      ?_, ?_⟩
    · simp [parseIndLines, hblank, hbad, hdir, hset]
    · refine ⟨?_, ?_, ?_, ?_⟩
      · exact setPath_good _ root root1 (lineNameOf line) (Node.dir Tree.nil)
          inv.good stackNames1 hbad (by simp [goodNode, goodTreeB]) hset
      · exact setPath_nodup _ root root1 (lineNameOf line) (Node.dir Tree.nil)
          inv.nodup (by simp [nodupNode, nodupKeysB]) hset
      · intro e he
        rcases List.mem_append.mp he with h1 | h1
        · exact stackGood1 e h1
        · rw [List.mem_singleton.mp h1]
          exact hbad
      · rw [List.map_append]
        exact hpush rfl
  · obtain ⟨root1, hset⟩ := setPath_ok_of_dirs ((popStack (indentOf line) stack).map Prod.snd)
      root (lineNameOf line) Node.file pathDirs1
    obtain ⟨hkeep, -⟩ := setPath_dirs _ root root1 (lineNameOf line) Node.file pathDirs1 hset
    refine ⟨root1, popStack (indentOf line) stack, ?_, ?_⟩
    · simp [parseIndLines, hblank, hbad, hdir, hset]
    · exact ⟨setPath_good _ root root1 (lineNameOf line) Node.file
          inv.good stackNames1 hbad (by simp [goodNode]) hset,
        setPath_nodup _ root root1 (lineNameOf line) Node.file
          inv.nodup (by simp [nodupNode]) hset,
        stackGood1, hkeep⟩

/-- Under the invariant, a successful parse returns a tree with
validated names and duplicate-free mappings. -/
theorem parseIndLines_inv_ok : ∀ (lines : List String) (root : Tree)
    (stack : List (Nat × String)) (t : Tree),
    IndInv root stack → parseIndLines lines root stack = Except.ok t →
    goodTreeB t = true ∧ nodupKeysB t = true
  | [], root, stack, t, inv, h => by
    have ht : root = t := by simpa [parseIndLines] using h
    subst ht
    exact ⟨inv.good, inv.nodup⟩
  | line :: rest, root, stack, t, inv, h => by
    by_cases hblank : pyStrip line = ""
    · exact parseIndLines_inv_ok rest root stack t inv
        (by simpa [parseIndLines, hblank] using h)
    · by_cases hbad : badName (lineNameOf line)
      · rw [show parseIndLines (line :: rest) root stack
            = Except.error (ParseErr.invalidName (lineNameOf line)) by
            simp [parseIndLines, hblank, hbad]] at h
        simp at h
      · obtain ⟨root1, stack1, hstep, inv1⟩ :=
          parseIndLines_step line rest root stack hblank (by simpa using hbad) inv
        rw [hstep] at h
        exact parseIndLines_inv_ok rest root1 stack1 t inv1 h

/-- Under the invariant, the first line name failing the check is
reported in the `ValueError`. -/
theorem parseIndLines_firstBad : ∀ (lines : List String) (root : Tree)
    (stack : List (Nat × String)) (n : String),
    IndInv root stack → List.find? badName (lineNames lines) = some n →
    parseIndLines lines root stack = Except.error (ParseErr.invalidName n)
  | [], _, _, n, _, hf => by simp [lineNames, List.find?] at hf
  | line :: rest, root, stack, n, inv, hf => by
    by_cases hblank : pyStrip line = ""
    · rw [show lineNames (line :: rest) = lineNames rest by simp [lineNames, hblank]] at hf
      rw [show parseIndLines (line :: rest) root stack = parseIndLines rest root stack by
          simp [parseIndLines, hblank]]
      exact parseIndLines_firstBad rest root stack n inv hf
    · rw [show lineNames (line :: rest) = lineNameOf line :: lineNames rest by
          simp [lineNames, hblank]] at hf
      by_cases hbad : badName (lineNameOf line)
      · rw [List.find?_cons_of_pos _ hbad] at hf
        have hn : lineNameOf line = n := Option.some.inj hf
        rw [← hn]
        simp [parseIndLines, hblank, hbad]
      · rw [List.find?_cons_of_neg _ (by simpa using hbad)] at hf
        obtain ⟨root1, stack1, hstep, inv1⟩ :=
          parseIndLines_step line rest root stack hblank (by simpa using hbad) inv
        rw [hstep]
        exact parseIndLines_firstBad rest root1 stack1 n inv1 hf

/-- Every name an `invalidName` error reports really fails the check. -/
theorem parseIndLines_invalid_sound : ∀ (lines : List String) (root : Tree)
    (stack : List (Nat × String)) (n : String),
    parseIndLines lines root stack = Except.error (ParseErr.invalidName n) →
    badName n = true
  | [], _, _, n, h => by simp [parseIndLines] at h
  | line :: rest, root, stack, n, h => by
    by_cases hblank : pyStrip line = ""
    · exact parseIndLines_invalid_sound rest root stack n
        (by simpa [parseIndLines, hblank] using h)
    · by_cases hbad : badName (lineNameOf line)
      · have hn : lineNameOf line = n := by
          have := (by simpa [parseIndLines, hblank, hbad] using h :
            ParseErr.invalidName (lineNameOf line) = ParseErr.invalidName n)
          exact ParseErr.invalidName.inj this
        rw [← hn]
        exact hbad
      · rcases hset : setPath root ((popStack (indentOf line) stack).map Prod.snd)
            (lineNameOf line)
            (if lastCharIs (pyStrip line) '/' then Node.dir Tree.nil else Node.file)
            with e | root1
        · have he : e = ParseErr.invalidName n := by
            simpa [parseIndLines, hblank, hbad, hset] using h
          exact absurd he (setPath_error_not_invalid _ root (lineNameOf line) _ e hset n)
        · exact parseIndLines_invalid_sound rest root1
            (if lastCharIs (pyStrip line) '/'
              then popStack (indentOf line) stack ++ [(indentOf line, lineNameOf line)]
              else popStack (indentOf line) stack) n
            (by simpa [parseIndLines, hblank, hbad, hset] using h)

/-! ## Filesystem lemmas -/

theorem lookupFS_append_left : ∀ (fs : FS) (l : FS) (q : Path) (e : Entry),
    lookupFS fs q = some e → lookupFS (fs ++ l) q = some e
  | [], _, _, _, h => by simp [lookupFS] at h
  | (q0, e0) :: rest, l, q, e, h => by
    by_cases h0 : q0 = q
    · simpa [lookupFS, h0] using h
    · simp only [lookupFS, h0, if_false] at h
      simpa [lookupFS, h0] using lookupFS_append_left rest l q e h

theorem lookupFS_append_new : ∀ (fs : FS) (p : Path) (e : Entry),
    lookupFS fs p = none → lookupFS (fs ++ [(p, e)]) p = some e
  | [], p, e, _ => by simp [lookupFS]
  | (q0, e0) :: rest, p, e, h => by
    by_cases h0 : q0 = p
    · simp [lookupFS, h0] at h
    · simp only [lookupFS, h0, if_false] at h
      simpa [lookupFS, h0] using lookupFS_append_new rest p e h

theorem lookupFS_append_single_ne : ∀ (fs : FS) (p : Path) (e : Entry) (q : Path),
    q ≠ p → lookupFS (fs ++ [(p, e)]) q = lookupFS fs q
  | [], p, e, q, h => by simp [lookupFS, Ne.symm h]
  | (q0, e0) :: rest, p, e, q, h => by
    by_cases h0 : q0 = q <;>
      simp [lookupFS, h0, lookupFS_append_single_ne rest p e q h]

theorem lookupFS_updateFS_self : ∀ (fs : FS) (p : Path) (e0 : Entry) (v : Entry),
    lookupFS fs p = some e0 → lookupFS (updateFS fs p v) p = some v
  | [], _, _, _, h => by simp [lookupFS] at h
  | (q0, w0) :: rest, p, e0, v, h => by
    by_cases h0 : q0 = p
    · simp [updateFS, lookupFS, h0]
    · simp only [lookupFS, h0, if_false] at h
      simpa [updateFS, lookupFS, h0] using lookupFS_updateFS_self rest p e0 v h

theorem lookupFS_updateFS_ne : ∀ (fs : FS) (p : Path) (v : Entry) (q : Path),
    q ≠ p → lookupFS (updateFS fs p v) q = lookupFS fs q
  | [], _, _, _, _ => by simp [updateFS]
  | (q0, w0) :: rest, p, v, q, h => by
    by_cases h0 : q0 = p
    · subst h0
      simp [updateFS, lookupFS, Ne.symm h]
    · by_cases h1 : q0 = q <;>
        simp [updateFS, lookupFS, h0, h1, h, lookupFS_updateFS_ne rest p v q h]

theorem updateFS_eq_self : ∀ (fs : FS) (p : Path),
    lookupFS fs p = some (Entry.file "") → updateFS fs p (Entry.file "") = fs
  | [], _, h => by simp [lookupFS] at h
  | (q0, w0) :: rest, p, h => by
    by_cases h0 : q0 = p
    · subst h0
      have hw : w0 = Entry.file "" := by simpa [lookupFS] using h
      subst hw
      simp [updateFS]
    · simp only [lookupFS, h0, if_false] at h
      simp [updateFS, h0, updateFS_eq_self rest p h]

/-- Both stability facts at once: directories stay directories, empty
files stay empty files. -/
def Stable (fs fs' : FS) : Prop :=
  DirsStable fs fs' ∧ EmptyFilesStable fs fs'

theorem Stable.rfl {fs : FS} : Stable fs fs :=
  ⟨fun _ h => h, fun _ h => h⟩

theorem Stable.trans {fs1 fs2 fs3 : FS} (h1 : Stable fs1 fs2) (h2 : Stable fs2 fs3) :
    Stable fs1 fs3 :=
  ⟨fun q h => h2.1 q (h1.1 q h), fun q h => h2.2 q (h1.2 q h)⟩

theorem stable_append (fs : FS) (ext : FS) : Stable fs (fs ++ ext) :=
  ⟨fun q h => lookupFS_append_left fs ext q Entry.dir h,
   fun q h => lookupFS_append_left fs ext q (Entry.file "") h⟩

theorem mkdirsAux_fst_append (fail : Path → Bool) : ∀ (l : List String) (fs : FS) (pref : Path),
    ∃ ext, (mkdirsAux fail fs pref l).1 = fs ++ ext
  | [], fs, pref => ⟨[], by simp [mkdirsAux]⟩
  | c :: rest, fs, pref => by
    rcases h : lookupFS fs (pref ++ [c]) with - | e
    · by_cases hf : fail (pref ++ [c])
      · exact ⟨[], by simp [mkdirsAux, h, hf]⟩
      · obtain ⟨ext, hext⟩ :=
          mkdirsAux_fst_append fail rest (fs ++ [(pref ++ [c], Entry.dir)]) (pref ++ [c])
        exact ⟨[(pref ++ [c], Entry.dir)] ++ ext, by simp [mkdirsAux, h, hf, hext]⟩
    · match e with
      | Entry.dir =>
        obtain ⟨ext, hext⟩ := mkdirsAux_fst_append fail rest fs (pref ++ [c])
        exact ⟨ext, by simp [mkdirsAux, h, hext]⟩
      | Entry.file s => exact ⟨[], by simp [mkdirsAux, h]⟩

theorem makedirs_stable (fail : Path → Bool) (fs : FS) (p : Path) :
    Stable fs (makedirs fail fs p).1 := by
  by_cases hp : p = []
  · simp [makedirs, hp]
    exact Stable.rfl
  · obtain ⟨ext, hext⟩ := mkdirsAux_fst_append fail p fs []
    simp only [makedirs, hp, if_false]
    rw [hext]
    exact stable_append fs ext

theorem openW_stable (fail : Path → Bool) (fs : FS) (p : Path) :
    Stable fs (openW fail fs p).1 := by
  rcases h : lookupFS fs p with - | e
  · by_cases hf : fail p
    · simpa [openW, h, hf] using Stable.rfl
    · simpa [openW, h, hf] using stable_append fs [(p, Entry.file "")]
  · match e with
    | Entry.dir => simpa [openW, h] using Stable.rfl
    | Entry.file s =>
      by_cases hf : fail p
      · simpa [openW, h, hf] using Stable.rfl
      · simp only [openW, h, hf, Bool.false_eq_true, if_false]
        constructor
        · intro q hq
          by_cases hqp : q = p
          · rw [hqp, h] at hq
            simp at hq
          · rwa [lookupFS_updateFS_ne fs p (Entry.file "") q hqp]
        · intro q hq
          by_cases hqp : q = p
          · rw [hqp]
            exact lookupFS_updateFS_self fs p (Entry.file s) (Entry.file "") h
          · rwa [lookupFS_updateFS_ne fs p (Entry.file "") q hqp]

theorem mkdirsAux_ok_post (fail : Path → Bool) : ∀ (l : List String) (fs fs' : FS) (pref : Path),
    mkdirsAux fail fs pref l = (fs', Except.ok ()) → prefDirsAux fs' pref l = true
  | [], _, _, _, _ => by simp [prefDirsAux]
  | c :: rest, fs, fs', pref, h => by
    rcases hl : lookupFS fs (pref ++ [c]) with - | e
    · by_cases hf : fail (pref ++ [c])
      · simp [mkdirsAux, hl, hf] at h
      · simp only [mkdirsAux, hl, hf, Bool.false_eq_true, if_false] at h
        have hpost := mkdirsAux_ok_post fail rest _ fs' (pref ++ [c]) h
        have h1 : (mkdirsAux fail (fs ++ [(pref ++ [c], Entry.dir)]) (pref ++ [c]) rest).1 = fs' := by
          rw [h]
        obtain ⟨ext, hext⟩ :=
          mkdirsAux_fst_append fail rest (fs ++ [(pref ++ [c], Entry.dir)]) (pref ++ [c])
        have hdir : lookupFS fs' (pref ++ [c]) = some Entry.dir := by
          rw [← h1, hext]
          exact lookupFS_append_left _ ext _ _ (lookupFS_append_new fs (pref ++ [c]) Entry.dir hl)
        simp [prefDirsAux, hdir, hpost]
    · match e with
      | Entry.dir =>
        simp only [mkdirsAux, hl] at h
        have hpost := mkdirsAux_ok_post fail rest fs fs' (pref ++ [c]) h
        have h1 : (mkdirsAux fail fs (pref ++ [c]) rest).1 = fs' := by rw [h]
        obtain ⟨ext, hext⟩ := mkdirsAux_fst_append fail rest fs (pref ++ [c])
        have hdir : lookupFS fs' (pref ++ [c]) = some Entry.dir := by
          rw [← h1, hext]
          exact lookupFS_append_left _ ext _ _ hl
        simp [prefDirsAux, hdir, hpost]
      | Entry.file s => simp [mkdirsAux, hl] at h

theorem mkdirsAux_noop (fail : Path → Bool) : ∀ (l : List String) (fs : FS) (pref : Path),
    prefDirsAux fs pref l = true → mkdirsAux fail fs pref l = (fs, Except.ok ())
  | [], fs, pref, _ => by simp [mkdirsAux]
  | c :: rest, fs, pref, h => by
    simp only [prefDirsAux, Bool.and_eq_true, decide_eq_true_eq] at h
    simp [mkdirsAux, h.1, mkdirsAux_noop fail rest fs (pref ++ [c]) h.2]

theorem makedirs_ok_post (fail : Path → Bool) (fs fs' : FS) (p : Path)
    (h : makedirs fail fs p = (fs', Except.ok ())) :
    p ≠ [] ∧ prefDirsB fs' p = true := by
  by_cases hp : p = []
  · simp [makedirs, hp] at h
  · exact ⟨hp, mkdirsAux_ok_post fail p fs fs' [] (by simpa [makedirs, hp] using h)⟩

theorem makedirs_noop (fail : Path → Bool) (fs : FS) (p : Path) (hp : p ≠ [])
    (h : prefDirsB fs p = true) : makedirs fail fs p = (fs, Except.ok ()) := by
  simp [makedirs, hp, mkdirsAux_noop fail p fs [] h]

theorem openW_ok_post (fail : Path → Bool) (fs fs' : FS) (p : Path)
    (h : openW fail fs p = (fs', Except.ok ())) :
    lookupFS fs' p = some (Entry.file "") ∧ fail p = false := by
  rcases hl : lookupFS fs p with - | e
  · by_cases hf : fail p
    · simp [openW, hl, hf] at h
    · simp only [openW, hl, hf, Bool.false_eq_true, if_false, Prod.mk.injEq] at h
      refine ⟨?_, by simpa using hf⟩
      rw [← h.1]
      exact lookupFS_append_new fs p (Entry.file "") hl
  · match e with
    | Entry.dir => simp [openW, hl] at h
    | Entry.file s =>
      by_cases hf : fail p
      · simp [openW, hl, hf] at h
      · simp only [openW, hl, hf, Bool.false_eq_true, if_false, Prod.mk.injEq] at h
        refine ⟨?_, by simpa using hf⟩
        rw [← h.1]
        exact lookupFS_updateFS_self fs p (Entry.file s) (Entry.file "") hl

theorem openW_noop (fail : Path → Bool) (fs : FS) (p : Path)
    (h : lookupFS fs p = some (Entry.file "")) (hf : fail p = false) :
    openW fail fs p = (fs, Except.ok ()) := by
  simp [openW, h, hf, updateFS_eq_self fs p h]

theorem prefDirsAux_stable : ∀ (l : List String) (fs fs' : FS) (pref : Path),
    DirsStable fs fs' → prefDirsAux fs pref l = true → prefDirsAux fs' pref l = true
  | [], _, _, _, _, _ => by simp [prefDirsAux]
  | c :: rest, fs, fs', pref, hst, h => by
    simp only [prefDirsAux, Bool.and_eq_true, decide_eq_true_eq] at h ⊢
    exact ⟨hst _ h.1, prefDirsAux_stable rest fs fs' (pref ++ [c]) hst h.2⟩

/-! ## Stability of the materializer: no run ever removes a directory or
disturbs an empty file, whether it succeeds or aborts -/

mutual

theorem goLoop_stable (fail : Path → Bool) (base : Path) (total : Nat) :
    ∀ (created : Nat) (t : Tree) (fs : FS),
      Stable fs (goLoop fail base total created t fs).1
  | created, Tree.nil, fs => by simpa [goLoop] using Stable.rfl
  | created, Tree.cons name node rest, fs => by
    by_cases hc : firstCharIs name '#'
    · simpa [goLoop, hc] using goLoop_stable fail base total created rest fs
    · rcases hE : goEntry fail base total created name node fs with ⟨fs1, tr1, r1⟩
      have hst1 : Stable fs fs1 := by
        have := goEntry_stable fail base total created name node fs
        rwa [hE] at this
      rcases r1 with e | u
      · simpa [goLoop, hc, hE] using hst1
      · rcases hL : goLoop fail base total (created + 1) rest fs1 with ⟨fs2, tr2, r2⟩
        have hst2 : Stable fs1 fs2 := by
          have := goLoop_stable fail base total (created + 1) rest fs1
          rwa [hL] at this
        simpa [goLoop, hc, hE, hL] using hst1.trans hst2

theorem goEntry_stable (fail : Path → Bool) (base : Path) (total created : Nat)
    (name : String) : ∀ (node : Node) (fs : FS),
      Stable fs (goEntry fail base total created name node fs).1
  | Node.file, fs => by
    rcases hM : makedirs fail fs base with ⟨fs1, r1⟩
    have hst1 : Stable fs fs1 := by
      have := makedirs_stable fail fs base
      rwa [hM] at this
    rcases r1 with e | u
    · simpa [goEntry, hM] using hst1
    · rcases hO : openW fail fs1 (base ++ [name]) with ⟨fs2, r2⟩
      have hst2 : Stable fs1 fs2 := by
        have := openW_stable fail fs1 (base ++ [name])
        rwa [hO] at this
      rcases r2 with e | u2 <;> simpa [goEntry, hM, hO] using hst1.trans hst2
  | Node.dir ch, fs => by
    rcases hM : makedirs fail fs (base ++ [name]) with ⟨fs1, r1⟩
    have hst1 : Stable fs fs1 := by
      have := makedirs_stable fail fs (base ++ [name])
      rwa [hM] at this
    rcases r1 with e | u
    · simpa [goEntry, hM] using hst1
    · rcases hL : goLoop fail (base ++ [name]) (count_items ch) 0 ch fs1 with ⟨fs2, tr2, r2⟩
      have hst2 : Stable fs1 fs2 := by
        have := goLoop_stable fail (base ++ [name]) (count_items ch) 0 ch fs1
        rwa [hL] at this
      rcases r2 with e | u2 <;> simpa [goEntry, hM, hL] using hst1.trans hst2

end

/-- The success value of the loop is always Python's `None`: the function
has no return statement. -/
theorem goLoop_ok_none (fail : Path → Bool) (base : Path) (total : Nat) :
    ∀ (created : Nat) (t : Tree) (fs : FS) (v : Option Int),
      (goLoop fail base total created t fs).2.2 = Except.ok v → v = none
  | created, Tree.nil, fs, v, h => by
    simp only [goLoop] at h
    have h2 : (Except.ok none : Except CErr (Option Int)) = Except.ok v := h
    exact (Except.ok.inj h2).symm
  | created, Tree.cons name node rest, fs, v, h => by
    by_cases hc : firstCharIs name '#'
    · have hrec := goLoop_ok_none fail base total created rest fs v
      apply hrec
      rw [← h]
      simp [goLoop, hc]
    · rcases hE : goEntry fail base total created name node fs with ⟨fs1, tr1, r1⟩
      rcases r1 with e | u
      · rw [show goLoop fail base total created (Tree.cons name node rest) fs
            = (fs1, tr1, Except.error e) by simp [goLoop, hc, hE]] at h
        simp at h
      · rcases hL : goLoop fail base total (created + 1) rest fs1 with ⟨fs2, tr2, r2⟩
        rw [show goLoop fail base total created (Tree.cons name node rest) fs
            = (fs2, tr1 ++ tr2, r2) by simp [goLoop, hc, hE, hL]] at h
        have hr2 : r2 = Except.ok v := by simpa using h
        have hrec := goLoop_ok_none fail base total (created + 1) rest fs1 v
        rw [hL] at hrec
        exact hrec (by simpa using hr2)

/-! ## Bounds on the reported progress counters -/

mutual

/-- Invariant of the loop: if the items created so far plus the count of
the remaining entries fits in the level's total, then every callback
invocation the loop emits carries `created < total` — the callback fires
before the current entry is created, and the current entry itself still
counts towards the total. -/
theorem goLoop_events (fail : Path → Bool) (base : Path) (total : Nat) :
    ∀ (created : Nat) (t : Tree) (fs : FS),
      created + count_items t ≤ total →
      ∀ ev ∈ (goLoop fail base total created t fs).2.1, ev.created < ev.total
  | created, Tree.nil, fs, _, ev, hev => by simp [goLoop] at hev
  | created, Tree.cons name node rest, fs, hb, ev, hev => by
    by_cases hc : firstCharIs name '#'
    · have hb' : created + count_items rest ≤ total := by
        simpa [count_items, hc] using hb
      exact goLoop_events fail base total created rest fs hb' ev
        (by simpa [goLoop, hc] using hev)
    · have hb' : created + (1 + countSub node + count_items rest) ≤ total := by
        simpa [count_items, hc, Nat.add_assoc] using hb
      have hlt : created < total := by omega
      rcases hE : goEntry fail base total created name node fs with ⟨fs1, tr1, r1⟩
      have hev1 : ∀ e ∈ tr1, Event.created e < Event.total e := by
        have := goEntry_events fail base total created name node fs hlt
        rwa [hE] at this
      rcases r1 with e | u
      · exact hev1 ev (by simpa [goLoop, hc, hE] using hev)
      · rcases hL : goLoop fail base total (created + 1) rest fs1 with ⟨fs2, tr2, r2⟩
        have hev2 : ∀ e ∈ tr2, Event.created e < Event.total e := by
          have := goLoop_events fail base total (created + 1) rest fs1 (by omega)
          rwa [hL] at this
        rcases (by simpa [goLoop, hc, hE, hL] using hev :
            ev ∈ tr1 ∨ ev ∈ tr2) with h1 | h1
        · exact hev1 ev h1
        · exact hev2 ev h1

/-- Every callback invocation a single entry's creation emits carries
`created < total`: the entry's own callback reports the incoming
counters, and the recursive call reports against its own subtree count. -/
theorem goEntry_events (fail : Path → Bool) (base : Path) (total created : Nat)
    (name : String) : ∀ (node : Node) (fs : FS), created < total →
      ∀ ev ∈ (goEntry fail base total created name node fs).2.1, ev.created < ev.total
  | Node.file, fs, hlt, ev, hev => by
    rcases hM : makedirs fail fs base with ⟨fs1, r1⟩
    rcases r1 with e | u
    · have : ev = ⟨"Creating file: " ++ pathStr (base ++ [name]), created, total⟩ := by
        simpa [goEntry, hM] using hev
      simpa [this] using hlt
    · rcases hO : openW fail fs1 (base ++ [name]) with ⟨fs2, r2⟩
      rcases r2 with e | u2 <;>
      · have : ev = ⟨"Creating file: " ++ pathStr (base ++ [name]), created, total⟩ := by
          simpa [goEntry, hM, hO] using hev
        simpa [this] using hlt
  | Node.dir ch, fs, hlt, ev, hev => by
    rcases hM : makedirs fail fs (base ++ [name]) with ⟨fs1, r1⟩
    rcases r1 with e | u
    · have : ev = ⟨"Creating directory: " ++ pathStr (base ++ [name]), created, total⟩ := by
        simpa [goEntry, hM] using hev
      simpa [this] using hlt
    · rcases hL : goLoop fail (base ++ [name]) (count_items ch) 0 ch fs1 with ⟨fs2, tr2, r2⟩
      have hev2 : ∀ e ∈ tr2, Event.created e < Event.total e := by
        have := goLoop_events fail (base ++ [name]) (count_items ch) 0 ch fs1 (by omega)
        rwa [hL] at this
      rcases r2 with e | u2 <;>
      · rcases (by simpa [goEntry, hM, hL] using hev :
            ev = ⟨"Creating directory: " ++ pathStr (base ++ [name]), created, total⟩ ∨
              ev ∈ tr2) with h1 | h1
        · simpa [h1] using hlt
        · exact hev2 ev h1

end

/-! ## The materialized state: established by a successful run, and
turning a second run into a no-op -/

mutual

theorem materializedB_stable (fail : Path → Bool) (fs fs' : FS) (hst : Stable fs fs') :
    ∀ (base : Path) (t : Tree),
      materializedB fail fs base t = true → materializedB fail fs' base t = true
  | _, Tree.nil, _ => by simp [materializedB]
  | base, Tree.cons name node rest, h => by
    simp only [materializedB, Bool.and_eq_true, Bool.or_eq_true] at h ⊢
    refine ⟨?_, materializedB_stable fail fs fs' hst base rest h.2⟩
    rcases h.1 with hc | hm
    · exact Or.inl hc
    · exact Or.inr (materializedEntry_stable fail fs fs' hst base name node hm)

theorem materializedEntry_stable (fail : Path → Bool) (fs fs' : FS) (hst : Stable fs fs') :
    ∀ (base : Path) (name : String) (node : Node),
      materializedEntry fail fs base name node = true →
      materializedEntry fail fs' base name node = true
  | base, name, Node.file, h => by
    simp only [materializedEntry, Bool.and_eq_true, decide_eq_true_eq] at h ⊢
    obtain ⟨⟨⟨h1, h2⟩, h3⟩, h4⟩ := h
    exact ⟨⟨⟨h1, prefDirsAux_stable base fs fs' [] hst.1 h2⟩, hst.2 _ h3⟩, h4⟩
  | base, name, Node.dir ch, h => by
    simp only [materializedEntry, Bool.and_eq_true] at h ⊢
    exact ⟨prefDirsAux_stable (base ++ [name]) fs fs' [] hst.1 h.1,
      materializedB_stable fail fs fs' hst (base ++ [name]) ch h.2⟩

end

mutual

/-- A successful run leaves the structure fully materialized. -/
theorem goLoop_ok_post (fail : Path → Bool) (base : Path) (total : Nat) :
    ∀ (created : Nat) (t : Tree) (fs : FS) (v : Option Int),
      (goLoop fail base total created t fs).2.2 = Except.ok v →
      materializedB fail (goLoop fail base total created t fs).1 base t = true
  | _, Tree.nil, fs, v, _ => by simp [goLoop, materializedB]
  | created, Tree.cons name node rest, fs, v, h => by
    by_cases hc : firstCharIs name '#'
    · have := goLoop_ok_post fail base total created rest fs v
        (by rw [← h]; simp [goLoop, hc])
      simp only [goLoop, hc, if_pos]
      simp [materializedB, hc, this]
    · rcases hE : goEntry fail base total created name node fs with ⟨fs1, tr1, r1⟩
      rcases r1 with e | u
      · rw [show (goLoop fail base total created (Tree.cons name node rest) fs).2.2
            = Except.error e by simp [goLoop, hc, hE]] at h
        simp at h
      · rcases hL : goLoop fail base total (created + 1) rest fs1 with ⟨fs2, tr2, r2⟩
        have hr2 : r2 = Except.ok v := by
          rw [show (goLoop fail base total created (Tree.cons name node rest) fs).2.2
              = r2 by simp [goLoop, hc, hE, hL]] at h
          exact h
        have hrest : materializedB fail fs2 base rest = true := by
          have := goLoop_ok_post fail base total (created + 1) rest fs1 v
            (by rw [hL, hr2])
          rwa [hL] at this
        have hstL : Stable fs1 fs2 := by
          have := goLoop_stable fail base total (created + 1) rest fs1
          rwa [hL] at this
        have hent : materializedEntry fail fs1 base name node = true := by
          have := goEntry_ok_post fail base total created name node fs (by rw [hE])
          rwa [hE] at this
        have hent' := materializedEntry_stable fail fs1 fs2 hstL base name node hent
        rw [show (goLoop fail base total created (Tree.cons name node rest) fs).1
            = fs2 by simp [goLoop, hc, hE, hL]]
        simp [materializedB, hent', hrest]

/-- A single entry's successful creation leaves that entry
materialized. -/
theorem goEntry_ok_post (fail : Path → Bool) (base : Path) (total created : Nat)
    (name : String) : ∀ (node : Node) (fs : FS),
      (goEntry fail base total created name node fs).2.2 = Except.ok () →
      materializedEntry fail (goEntry fail base total created name node fs).1
        base name node = true
  | Node.file, fs, h => by
    rcases hM : makedirs fail fs base with ⟨fs1, r1⟩
    rcases r1 with e | u
    · rw [show (goEntry fail base total created name Node.file fs).2.2
          = Except.error (CErr.fileErr (base ++ [name]) e) by simp [goEntry, hM]] at h
      simp at h
    · rcases hO : openW fail fs1 (base ++ [name]) with ⟨fs2, r2⟩
      rcases r2 with e | u2
      · rw [show (goEntry fail base total created name Node.file fs).2.2
            = Except.error (CErr.fileErr (base ++ [name]) e) by simp [goEntry, hM, hO]] at h
        simp at h
      · obtain ⟨hbase, hpref⟩ := makedirs_ok_post fail fs fs1 base hM
        obtain ⟨hfile, hfail⟩ := openW_ok_post fail fs1 fs2 (base ++ [name]) hO
        have hstO : Stable fs1 fs2 := by
          have := openW_stable fail fs1 (base ++ [name])
          rwa [hO] at this
        have hpref' := prefDirsAux_stable base fs1 fs2 [] hstO.1 hpref
        rw [show (goEntry fail base total created name Node.file fs).1
            = fs2 by simp [goEntry, hM, hO]]
        simp [materializedEntry, prefDirsB, hbase, hpref', hfile, hfail]
  | Node.dir ch, fs, h => by
    rcases hM : makedirs fail fs (base ++ [name]) with ⟨fs1, r1⟩
    rcases r1 with e | u
    · rw [show (goEntry fail base total created name (Node.dir ch) fs).2.2
          = Except.error (CErr.dirOsErr (base ++ [name]) e) by simp [goEntry, hM]] at h
      simp at h
    · rcases hL : goLoop fail (base ++ [name]) (count_items ch) 0 ch fs1 with ⟨fs2, tr2, r2⟩
      rcases r2 with e | u2
      · rw [show (goEntry fail base total created name (Node.dir ch) fs).2.2
            = Except.error (CErr.dirNested (base ++ [name]) e) by simp [goEntry, hM, hL]] at h
        simp at h
      · obtain ⟨-, hpref⟩ := makedirs_ok_post fail fs fs1 (base ++ [name]) hM
        have hch : materializedB fail fs2 (base ++ [name]) ch = true := by
          have := goLoop_ok_post fail (base ++ [name]) (count_items ch) 0 ch fs1 u2
            (by rw [hL])
          rwa [hL] at this
        have hstL : Stable fs1 fs2 := by
          have := goLoop_stable fail (base ++ [name]) (count_items ch) 0 ch fs1
          rwa [hL] at this
        have hpref' := prefDirsAux_stable (base ++ [name]) fs1 fs2 [] hstL.1 hpref
        rw [show (goEntry fail base total created name (Node.dir ch) fs).1
            = fs2 by simp [goEntry, hM, hL]]
        simp [materializedEntry, prefDirsB, hpref', hch]

end

mutual

/-- On a fully materialized structure the loop does nothing: the
filesystem is returned unchanged and the run succeeds. -/
theorem goLoop_noop (fail : Path → Bool) (base : Path) (total : Nat) :
    ∀ (created : Nat) (t : Tree) (fs : FS),
      materializedB fail fs base t = true →
      ∃ tr, goLoop fail base total created t fs = (fs, tr, Except.ok none)
  | _, Tree.nil, fs, _ => ⟨[], by simp [goLoop]⟩
  | created, Tree.cons name node rest, fs, h => by
    simp only [materializedB, Bool.and_eq_true, Bool.or_eq_true] at h
    by_cases hc : firstCharIs name '#'
    · obtain ⟨tr, htr⟩ := goLoop_noop fail base total created rest fs h.2
      exact ⟨tr, by simpa [goLoop, hc] using htr⟩
    · have hent : materializedEntry fail fs base name node = true := by
        rcases h.1 with h1 | h1
        · exact absurd h1 (by simpa using hc)
        · exact h1
      obtain ⟨tr1, htr1⟩ := goEntry_noop fail base total created name node fs hent
      obtain ⟨tr2, htr2⟩ := goLoop_noop fail base total (created + 1) rest fs h.2
      exact ⟨tr1 ++ tr2, by simp [goLoop, hc, htr1, htr2]⟩

/-- On a materialized entry the body does nothing. -/
theorem goEntry_noop (fail : Path → Bool) (base : Path) (total created : Nat)
    (name : String) : ∀ (node : Node) (fs : FS),
      materializedEntry fail fs base name node = true →
      ∃ tr, goEntry fail base total created name node fs = (fs, tr, Except.ok ())
  | Node.file, fs, h => by
    simp only [materializedEntry, Bool.and_eq_true, decide_eq_true_eq] at h
    obtain ⟨⟨⟨h1, h2⟩, h3⟩, h4⟩ := h
    have hM := makedirs_noop fail fs base h1 h2
    have hO := openW_noop fail fs (base ++ [name]) h3 (by simpa using h4)
    exact ⟨[⟨"Creating file: " ++ pathStr (base ++ [name]), created, total⟩],
      by simp [goEntry, hM, hO]⟩
  | Node.dir ch, fs, h => by
    simp only [materializedEntry, Bool.and_eq_true] at h
    have hM := makedirs_noop fail fs (base ++ [name]) (by simp) h.1
    obtain ⟨tr2, htr2⟩ := goLoop_noop fail (base ++ [name]) (count_items ch) 0 ch fs h.2
    exact ⟨⟨"Creating directory: " ++ pathStr (base ++ [name]), created, total⟩ :: tr2,
      by simp [goEntry, hM, htr2]⟩

end

mutual

/-- A materialized structure has all its files present and empty. -/
theorem materializedB_filesEmpty (fail : Path → Bool) (fs : FS) :
    ∀ (base : Path) (t : Tree),
      materializedB fail fs base t = true → allFilesEmptyB fs base t = true
  | _, Tree.nil, _ => by simp [allFilesEmptyB]
  | base, Tree.cons name node rest, h => by
    simp only [materializedB, Bool.and_eq_true, Bool.or_eq_true] at h
    simp only [allFilesEmptyB, Bool.and_eq_true, Bool.or_eq_true]
    refine ⟨?_, materializedB_filesEmpty fail fs base rest h.2⟩
    rcases h.1 with h1 | h1
    · exact Or.inl h1
    · exact Or.inr (materializedEntry_filesEmpty fail fs base name node h1)

theorem materializedEntry_filesEmpty (fail : Path → Bool) (fs : FS) :
    ∀ (base : Path) (name : String) (node : Node),
      materializedEntry fail fs base name node = true →
      filesEmptyEntry fs base name node = true
  | base, name, Node.file, h => by
    simp only [materializedEntry, Bool.and_eq_true, decide_eq_true_eq] at h
    simp [filesEmptyEntry, h.1.2]
  | base, name, Node.dir ch, h => by
    simp only [materializedEntry, Bool.and_eq_true] at h
    simpa [filesEmptyEntry] using materializedB_filesEmpty fail fs (base ++ [name]) ch h.2

end

/-- A callback invocation with `created < total` reports strictly less
than 100 percent. -/
theorem evPercent_lt_100 (ev : Event) (h : ev.created < ev.total) : evPercent ev < 100 := by
  have ht : (0 : ℚ) < ev.total := by exact_mod_cast Nat.pos_of_ne_zero (by omega)
  rw [evPercent, div_mul_eq_mul_div, div_lt_iff₀ ht]
  have hc : (ev.created : ℚ) < ev.total := by exact_mod_cast h
  nlinarith

/-! ## C1: the materializer's return value -/

/-- C1 counterexample: on a one-file tree the run succeeds, creates the
one item the tree counts, and returns Python's `None` — not the integer
1 the claim promises. -/
theorem C1_counterexample :
    (create_directory_structure (fun _ => false) ["o"]
        (Tree.cons "a" Node.file Tree.nil) []).2.2 = Except.ok none
    ∧ count_items (Tree.cons "a" Node.file Tree.nil) = 1
    ∧ (Except.ok (some (1 : Int)) : Except CErr (Option Int)) ≠ Except.ok none :=
  ⟨rfl, rfl, by simp⟩

/-- C1 (amended): `create_directory_structure` never returns an integer:
on success its value is Python's `None` (the function has no return
statement), and otherwise it raises a `CreationError`. -/
theorem C1_materialize_returns_none :
    ∀ (fail : Path → Bool) (base : Path) (t : Tree) (fs : FS),
      (create_directory_structure fail base t fs).2.2 = Except.ok none ∨
        ∃ e, (create_directory_structure fail base t fs).2.2 = Except.error e := by
  intro fail base t fs
  rcases hr : (create_directory_structure fail base t fs).2.2 with e | v
  · exact Or.inr ⟨e, rfl⟩
  · have hv : v = none := by
      apply goLoop_ok_none fail base (count_items t) 0 t fs v
      simpa [create_directory_structure] using hr
    exact Or.inl (by rw [hv])

/-! ## C3: when the progress callback fires and with which percentage -/

/-- C3 counterexample: on the one-file tree the sole callback invocation
carries percentage 0 — it happens before the creation, not after it with
`1/1*100 = 100` as the claim states. -/
theorem C3_counterexample :
    (create_directory_structure (fun _ => false) ["o"]
        (Tree.cons "a" Node.file Tree.nil) []).2.1 = [⟨"Creating file: o/a", 0, 1⟩]
    ∧ evPercent ⟨"Creating file: o/a", 0, 1⟩ = 0
    ∧ (0 : ℚ) ≠ 100 := by
  refine ⟨rfl, ?_, by norm_num⟩
  simp [evPercent]

/-- C3 (amended): the callback fires before each creation attempt of a
non-comment entry, with percentage `items created so far at the current
recursion level ÷ count_items of the current (sub)structure × 100` — the
recursion reports against its own subtree's total, as the nested-tree
trace shows — so every reported percentage is strictly below 100. -/
theorem C3_progress_reported_before_creation :
    (∀ (fail : Path → Bool) (base : Path) (t : Tree) (fs : FS),
        ∀ ev ∈ (create_directory_structure fail base t fs).2.1,
          ev.created < ev.total ∧ evPercent ev < 100)
    ∧ (create_directory_structure (fun _ => false) ["o"]
          (Tree.cons "d" (Node.dir (Tree.cons "f" Node.file Tree.nil)) Tree.nil) []).2.1
        = [⟨"Creating directory: o/d", 0, 2⟩, ⟨"Creating file: o/d/f", 0, 1⟩] := by
  refine ⟨?_, rfl⟩
  intro fail base t fs ev hev
  simp only [create_directory_structure] at hev
  have hlt := goLoop_events fail base (count_items t) 0 t fs (by simp) ev hev
  exact ⟨hlt, evPercent_lt_100 ev hlt⟩

/-- C3 witness: the first callback of the nested-tree run satisfies the
amended bound. -/
theorem C3_witness :
    (⟨"Creating directory: o/d", 0, 2⟩ : Event).created
        < (⟨"Creating directory: o/d", 0, 2⟩ : Event).total
    ∧ evPercent ⟨"Creating directory: o/d", 0, 2⟩ < 100 := by
  have hm : (⟨"Creating directory: o/d", 0, 2⟩ : Event) ∈
      (create_directory_structure (fun _ => false) ["o"]
        (Tree.cons "d" (Node.dir (Tree.cons "f" Node.file Tree.nil)) Tree.nil) []).2.1 := by
    rw [show (create_directory_structure (fun _ => false) ["o"]
        (Tree.cons "d" (Node.dir (Tree.cons "f" Node.file Tree.nil)) Tree.nil) []).2.1
        = [⟨"Creating directory: o/d", 0, 2⟩, ⟨"Creating file: o/d/f", 0, 1⟩] from rfl]
    exact List.mem_cons_self _ _
  exact C3_progress_reported_before_creation.1 (fun _ => false) ["o"]
    (Tree.cons "d" (Node.dir (Tree.cons "f" Node.file Tree.nil)) Tree.nil) [] _ hm

/-! ## C4: comment entries are inert, subtree included -/

/-- C4: an entry whose name starts with `#` contributes zero to
`count_items` and the materializer's loop treats the entry as if it were
absent — no filesystem operation, no callback, no visit of its subtree;
since both functions recurse level by level, this holds at every nesting
depth. -/
theorem C4_comment_entries_skipped_entirely :
    ∀ (name : String) (node : Node) (rest : Tree), firstCharIs name '#' = true →
      count_items (Tree.cons name node rest) = count_items rest
      ∧ ∀ (fail : Path → Bool) (base : Path) (total created : Nat) (fs : FS),
          goLoop fail base total created (Tree.cons name node rest) fs
            = goLoop fail base total created rest fs := by
  intro name node rest hc
  exact ⟨by simp [count_items, hc], fun fail base total created fs => by simp [goLoop, hc]⟩

/-- C4 witness: a concrete comment directory with a child is skipped whole. -/
theorem C4_witness :
    count_items (Tree.cons "#note" (Node.dir (Tree.cons "x" Node.file Tree.nil)) Tree.nil)
        = count_items Tree.nil
    ∧ goLoop (fun _ => false) ["o"] 5 0
          (Tree.cons "#note" (Node.dir (Tree.cons "x" Node.file Tree.nil)) Tree.nil) []
        = goLoop (fun _ => false) ["o"] 5 0 Tree.nil [] :=
  ⟨(C4_comment_entries_skipped_entirely "#note"
      (Node.dir (Tree.cons "x" Node.file Tree.nil)) Tree.nil rfl).1,
   (C4_comment_entries_skipped_entirely "#note"
      (Node.dir (Tree.cons "x" Node.file Tree.nil)) Tree.nil rfl).2
      (fun _ => false) ["o"] 5 0 []⟩

/-! ## C8: failure wrapping, abort, and absence of rollback -/

/-- C8: whatever a run does — succeed or abort on an I/O failure — every
directory and every empty file present when it started is still present
when it stops (no rollback; in particular everything the run itself
created before a failure stays on disk, since the returned filesystem is
the one at the moment of the abort).  On the concrete three-file tree
whose second file the oracle refuses, the run stops with a
`CreationError` whose message identifies the failing path and the
underlying cause, after creating the first file and without attempting
the third. -/
theorem C8_creation_error_aborts_without_rollback :
    (∀ (fail : Path → Bool) (base : Path) (t : Tree) (fs : FS) (total created : Nat),
        Stable fs (goLoop fail base total created t fs).1)
    ∧ create_directory_structure (fun p => decide (p = ["o", "b"])) ["o"]
        (Tree.cons "a" Node.file (Tree.cons "b" Node.file (Tree.cons "c" Node.file Tree.nil)))
        []
      = ([(["o"], Entry.dir), (["o", "a"], Entry.file "")],
         [⟨"Creating file: o/a", 0, 3⟩, ⟨"Creating file: o/b", 1, 3⟩],
         Except.error (CErr.fileErr ["o", "b"] (OsErr.permission ["o", "b"])))
    ∧ (CErr.fileErr ["o", "b"] (OsErr.permission ["o", "b"])).rootCause
        = (["o", "b"], OsErr.permission ["o", "b"])
    ∧ lookupFS [(["o"], Entry.dir), (["o", "a"], Entry.file "")] ["o", "c"] = none :=
  ⟨fun fail base t fs total created => goLoop_stable fail base total created t fs,
   rfl, rfl, rfl⟩

/-- C8 witness: a pre-existing directory survives a concrete run. -/
theorem C8_witness :
    lookupFS (goLoop (fun _ => false) ["o"] 1 0 (Tree.cons "a" Node.file Tree.nil)
        [(["z"], Entry.dir)]).1 ["z"] = some Entry.dir :=
  (C8_creation_error_aborts_without_rollback.1 (fun _ => false) ["o"]
      (Tree.cons "a" Node.file Tree.nil) [(["z"], Entry.dir)] 1 0).1 ["z"] rfl

/-! ## C9: idempotence of materialization -/

/-- C9: if materializing a tree under a base path succeeds, materializing
it again from the resulting filesystem succeeds as well and leaves the
filesystem exactly as it was — existing directories are accepted, the
files are truncated back to the empty content they already have — and all
created files are empty. -/
theorem C9_materialize_idempotent :
    ∀ (fail : Path → Bool) (base : Path) (t : Tree) (fs fs' : FS) (tr : List Event)
      (v : Option Int),
      create_directory_structure fail base t fs = (fs', tr, Except.ok v) →
      (∃ tr2, create_directory_structure fail base t fs' = (fs', tr2, Except.ok none))
      ∧ allFilesEmptyB fs' base t = true := by
  intro fail base t fs fs' tr v h
  simp only [create_directory_structure] at h ⊢
  have h1 : (goLoop fail base (count_items t) 0 t fs).1 = fs' := by rw [h]
  have h2 : (goLoop fail base (count_items t) 0 t fs).2.2 = Except.ok v := by rw [h]
  have hmat : materializedB fail fs' base t = true := by
    have := goLoop_ok_post fail base (count_items t) 0 t fs v h2
    rwa [h1] at this
  exact ⟨goLoop_noop fail base (count_items t) 0 t fs' hmat,
    materializedB_filesEmpty fail fs' base t hmat⟩

/-- C9 witness: re-running the one-file materialization on its own result
filesystem succeeds and changes nothing. -/
theorem C9_witness :
    (∃ tr2, create_directory_structure (fun _ => false) ["o"]
        (Tree.cons "a" Node.file Tree.nil) [(["o"], Entry.dir), (["o", "a"], Entry.file "")]
      = ([(["o"], Entry.dir), (["o", "a"], Entry.file "")], tr2, Except.ok none))
    ∧ allFilesEmptyB [(["o"], Entry.dir), (["o", "a"], Entry.file "")] ["o"]
        (Tree.cons "a" Node.file Tree.nil) = true :=
  C9_materialize_idempotent (fun _ => false) ["o"] (Tree.cons "a" Node.file Tree.nil)
    [] [(["o"], Entry.dir), (["o", "a"], Entry.file "")]
    [⟨"Creating file: o/a", 0, 1⟩] none rfl

/-! ## C10: the percentage computation never divides by zero -/

/-- C10: whenever the materializer invokes the progress callback, the
`total_items` it divides by is at least 1: the division is only reached
for a non-comment entry of the (sub)structure the current recursion level
was called on, and `count_items` counts that entry. -/
theorem C10_progress_total_never_zero :
    ∀ (fail : Path → Bool) (base : Path) (t : Tree) (fs : FS),
      ∀ ev ∈ (create_directory_structure fail base t fs).2.1, 1 ≤ ev.total := by
  intro fail base t fs ev hev
  simp only [create_directory_structure] at hev
  have := goLoop_events fail base (count_items t) 0 t fs (by simp) ev hev
  omega

/-- C10 witness: the callback of the one-file run divides by 1. -/
theorem C10_witness :
    (⟨"Creating file: o/a", 0, 1⟩ : Event) ∈
        (create_directory_structure (fun _ => false) ["o"]
          (Tree.cons "a" Node.file Tree.nil) []).2.1
    ∧ 1 ≤ (⟨"Creating file: o/a", 0, 1⟩ : Event).total := by
  have hm : (⟨"Creating file: o/a", 0, 1⟩ : Event) ∈
      (create_directory_structure (fun _ => false) ["o"]
        (Tree.cons "a" Node.file Tree.nil) []).2.1 := by
    rw [show (create_directory_structure (fun _ => false) ["o"]
        (Tree.cons "a" Node.file Tree.nil) []).2.1
        = [⟨"Creating file: o/a", 0, 1⟩] from rfl]
    exact List.mem_singleton_self _
  exact ⟨hm, C10_progress_total_never_zero (fun _ => false) ["o"]
    (Tree.cons "a" Node.file Tree.nil) [] _ hm⟩

/-- The invariant holds at the parser's initial state. -/
theorem indInv_init : IndInv Tree.nil [] :=
  ⟨rfl, rfl, fun e he => absurd he (List.not_mem_nil e), trivial⟩

/-! ## C2: name validation in the two parsers -/

/-- C2 counterexample: the ASCII parser accepts a line whose name
contains `/` and does not start with `#`, returning it as an entry
instead of failing with a `ParseError`. -/
theorem C2_counterexample :
    parse_ascii_tree "p/\n├── a/b" = Except.ok (Tree.cons "a/b" Node.file Tree.nil)
    ∧ containsChar "a/b" '/' = true
    ∧ firstCharIs "a/b" '#' = false :=
  ⟨rfl, rfl, rfl⟩

/-- C2 (amended): the indented parser validates names exactly as claimed
— parsing fails with a `ParseError` identifying the first line name that
is empty or contains `/` or `\` without starting with `#`, and every
name such an error reports really fails that check — but the ASCII-tree
parser performs no name validation at all and accepts such names. -/
theorem C2_name_validation_indented_format_only :
    (∀ (text n : String),
        List.find? badName (textLineNames text) = some n →
        parse_indented_tree text = Except.error (ParseErr.invalidName n))
    ∧ (∀ (text n : String),
        parse_indented_tree text = Except.error (ParseErr.invalidName n) →
        badName n = true)
    ∧ parse_ascii_tree "p/\n├── a/b" = Except.ok (Tree.cons "a/b" Node.file Tree.nil) :=
  ⟨fun text n hf => parseIndLines_firstBad (pyLines text) Tree.nil [] n indInv_init hf,
   fun text n h => parseIndLines_invalid_sound (pyLines text) Tree.nil [] n h,
   rfl⟩

/-- C2 witness: the single-line input `a/b` fails with a `ParseError`
identifying exactly that name. -/
theorem C2_witness :
    List.find? badName (textLineNames "a/b") = some "a/b"
    ∧ parse_indented_tree "a/b" = Except.error (ParseErr.invalidName "a/b")
    ∧ badName "a/b" = true :=
  ⟨rfl, C2_name_validation_indented_format_only.1 "a/b" "a/b" rfl,
   C2_name_validation_indented_format_only.2.1 "a/b" "a/b"
     (C2_name_validation_indented_format_only.1 "a/b" "a/b" rfl)⟩

/-! ## C5: the invariants of the parsed tree -/

/-- C5 counterexample: the indented parser keeps a comment entry whose
name contains `/` — the separator-free invariant does not hold for every
name of a returned tree. -/
theorem C5_counterexample :
    parse_indented_tree "#a/b" = Except.ok (Tree.cons "#a/b" Node.file Tree.nil)
    ∧ containsChar "#a/b" '/' = true :=
  ⟨rfl, rfl⟩

/-- C5 (amended): every tree the indented parser returns has names that
are non-empty and — unless they start with `#` — free of `/` and `\`,
with duplicate-free mappings at every level; insertion is Python dict
assignment, so a duplicated name keeps its position, its node (subtree
included) is replaced wholesale by the later occurrence, and a fresh name
is appended at the end.  The ASCII parser validates nothing and can
return names with separators. -/
theorem C5_parsed_tree_invariants :
    (∀ (text : String) (t : Tree), parse_indented_tree text = Except.ok t →
        goodTreeB t = true ∧ nodupKeysB t = true)
    ∧ (∀ (m : Tree) (k : String) (v : Node), lookupTree (dictInsert m k v) k = some v)
    ∧ (∀ (m : Tree) (k : String) (v : Node) (k' : String), k' ≠ k →
        lookupTree (dictInsert m k v) k' = lookupTree m k')
    ∧ (∀ (m : Tree) (k : String) (v : Node), k ∈ keysOf m →
        keysOf (dictInsert m k v) = keysOf m)
    ∧ (∀ (m : Tree) (k : String) (v : Node), k ∉ keysOf m →
        keysOf (dictInsert m k v) = keysOf m ++ [k])
    ∧ parse_ascii_tree "r/\n├── x\\y" = Except.ok (Tree.cons "x\\y" Node.file Tree.nil) :=
  ⟨fun text t h => parseIndLines_inv_ok (pyLines text) Tree.nil [] t indInv_init h,
   lookupTree_dictInsert_self, lookupTree_dictInsert_ne,
   keysOf_dictInsert_mem, keysOf_dictInsert_notMem, rfl⟩

/-- C5 witness: the amended invariants evaluated on concrete inputs. -/
theorem C5_witness :
    (goodTreeB (Tree.cons "a" (Node.dir Tree.nil) Tree.nil) = true
      ∧ nodupKeysB (Tree.cons "a" (Node.dir Tree.nil) Tree.nil) = true)
    ∧ lookupTree (dictInsert (Tree.cons "k" Node.file Tree.nil) "k" (Node.dir Tree.nil)) "j"
        = lookupTree (Tree.cons "k" Node.file Tree.nil) "j"
    ∧ keysOf (dictInsert (Tree.cons "k" Node.file Tree.nil) "k" Node.file) = ["k"]
    ∧ keysOf (dictInsert (Tree.cons "k" Node.file Tree.nil) "j" Node.file) = ["k", "j"] := by
  refine ⟨C5_parsed_tree_invariants.1 "a/" (Tree.cons "a" (Node.dir Tree.nil) Tree.nil) rfl,
    C5_parsed_tree_invariants.2.2.1 (Tree.cons "k" Node.file Tree.nil) "k"
      (Node.dir Tree.nil) "j" (by decide), ?_, ?_⟩
  · rw [C5_parsed_tree_invariants.2.2.2.1 (Tree.cons "k" Node.file Tree.nil) "k" Node.file
      (by simp [keysOf])]
    rfl
  · rw [C5_parsed_tree_invariants.2.2.2.2.1 (Tree.cons "k" Node.file Tree.nil) "j" Node.file
      (by simp [keysOf])]
    rfl

/-! ## C6 and C7: the worked examples of the two parsers -/

/-- C6: `parse_ascii_tree` returns only the children of the (possibly
synthetic) root, never the root itself.  For the §8 example the result is
`{a.py: file, sub: {b.py: file}}` — the root name `project` is not among
its keys — and `count_items` of it is 3; for an input whose first line
does not end in `/`, a synthetic root named `root` is assumed, discarded
from the result, and the original first line is re-read as a depth-0
entry under it. -/
theorem C6_ascii_parser_returns_children_of_root :
    parse_ascii_tree "project/\n├── a.py\n└── sub/\n    └── b.py" =
      Except.ok (Tree.cons "a.py" Node.file
        (Tree.cons "sub" (Node.dir (Tree.cons "b.py" Node.file Tree.nil)) Tree.nil))
    ∧ count_items (Tree.cons "a.py" Node.file
        (Tree.cons "sub" (Node.dir (Tree.cons "b.py" Node.file Tree.nil)) Tree.nil)) = 3
    ∧ "project" ∉ keysOf (Tree.cons "a.py" Node.file
        (Tree.cons "sub" (Node.dir (Tree.cons "b.py" Node.file Tree.nil)) Tree.nil))
    ∧ parse_ascii_tree "x.py" = Except.ok (Tree.cons "x.py" Node.file Tree.nil) := by
  refine ⟨rfl, rfl, ?_, rfl⟩
  simp [keysOf]

/-- C7: the indented parser pops exactly the stack entries whose
indentation is `≥` the current line's indentation (they form the removed
suffix of the root-first stack) before inserting under the remaining
path; the §8 four-line example parses to
`project → {src → {main.py: file}, README.md: file}`, whose
`count_items` is 4. -/
theorem C7_indented_parser_stack_pops_and_example :
    (∀ (indent : Nat) (stack : List (Nat × String)),
        ∃ dropped, stack = popStack indent stack ++ dropped ∧ ∀ e ∈ dropped, indent ≤ e.1)
    ∧ parse_indented_tree "project/\n    src/\n        main.py\n    README.md" =
        Except.ok (Tree.cons "project"
          (Node.dir (Tree.cons "src" (Node.dir (Tree.cons "main.py" Node.file Tree.nil))
            (Tree.cons "README.md" Node.file Tree.nil))) Tree.nil)
    ∧ count_items (Tree.cons "project"
          (Node.dir (Tree.cons "src" (Node.dir (Tree.cons "main.py" Node.file Tree.nil))
            (Tree.cons "README.md" Node.file Tree.nil))) Tree.nil) = 4 :=
  ⟨popStack_decomp, rfl, rfl⟩

end DirTreeCreator
